import Mathlib

/-!
Shallow embedding of the NYC congestion-pricing dashboard (`dashboard.py`).

The embedding covers the three pieces of the program that carry a contract:

* the rain-report metric extraction (`dashboard.py` lines 519-535): three
  independent `re.search` scans over the report text, with `float(...)`
  applied to the numeric captures;
* `safe_read_text` (lines 125-138): UTF-8 decode, latin-1 fallback,
  a give-up branch returning the empty string with a warning;
* `load_image` / `display_plot` (lines 111-155): existence check, warning
  and `None` on a missing or unreadable image.

Modelling conventions: Python `str` values are `List Char` (a Lean `Char`
is a Unicode scalar value, matching the code points of a Python string);
file contents are `List Nat` byte sequences; Python floats are modelled as
exact rationals (`Rat`), which is faithful here because the program only
parses decimal literals and compares them, never performs float
arithmetic; the character classes `\d` and `\w` of the regexes are
modelled on their ASCII fragment, which is the fragment the report files
exercise; Streamlit calls are modelled as an effect trace (`StEffect`),
and an uncaught Python exception as an `Except.error`.
-/

/-! ## Character classes of the regex patterns -/

/-- ASCII fragment of the regex class `[\d.-]` used by the two numeric
patterns of the extraction. -/
def numChar (c : Char) : Bool := c.isDigit || c = '.' || c = '-'

/-- ASCII fragment of the regex class `\w` used by the wettest-month
pattern. -/
def wordChar (c : Char) : Bool := c.isAlphanum || c = '_'

/-! ## The `re.search` model

Each of the three patterns has the shape: a literal label, then a greedy
one-or-more character-class capture, then (for the elasticity pattern) a
literal `%`.  `matchCap` decides whether such a pattern matches at the
head of a string and returns the captured group; `reSearch` scans the
string left to right and returns the capture of the leftmost match, which
is exactly `re.search`'s semantics for these patterns (the class never
contains the trailing literal, so greedy matching with backtracking
reduces to "maximal run followed by the trailing literal"). -/

/-- Match `lit` then `cls`⁺ (greedy, captured) then the optional literal
character `suf` at the head of `s`; return the captured group. -/
def matchCap (lit : List Char) (cls : Char → Bool) (suf : Option Char)
    (s : List Char) : Option (List Char) :=
  if lit.isPrefixOf s then
    let t := s.drop lit.length
    let g := t.takeWhile cls
    let d := t.dropWhile cls
    if g.isEmpty then none
    else
      match suf with
      | none => some g
      | some c =>
        match d with
        | e :: _ => if e = c then some g else none
        | [] => none
  else none

/-- Leftmost-match search: the capture of the first position (scanning
left to right) at which the pattern matches. -/
def reSearch (lit : List Char) (cls : Char → Bool) (suf : Option Char) :
    List Char → Option (List Char)
  | [] => matchCap lit cls suf []
  | c :: rest =>
    match matchCap lit cls suf (c :: rest) with
    | some g => some g
    | none => reSearch lit cls suf rest

/-- Label literal of `re.search(r'Correlation coefficient: ([\d.-]+)', ...)`. -/
def corrLabel : List Char := ("Correlation coefficient: ").data

/-- Label literal of `re.search(r'Elasticity: ([\d.-]+)%', ...)`. -/
def elasticLabel : List Char := ("Elasticity: ").data

/-- Label literal of `re.search(r'Wettest month: (\w+)', ...)`. -/
def monthLabel : List Char := ("Wettest month: ").data

/-- Model of `re.search(r'Correlation coefficient: ([\d.-]+)', s)`, returning the
captured group of the leftmost match. -/
def corrSearch (s : List Char) : Option (List Char) :=
  reSearch corrLabel numChar none s

/-- Model of `re.search(r'Elasticity: ([\d.-]+)%', s)`, returning the captured
group of the leftmost match. -/
def elasticSearch (s : List Char) : Option (List Char) :=
  reSearch elasticLabel numChar (some '%') s

/-- Model of `re.search(r'Wettest month: (\w+)', s)`, returning the captured group
of the leftmost match. -/
def monthSearch (s : List Char) : Option (List Char) :=
  reSearch monthLabel wordChar none s

/-! ## Python `float()` on the captured text

The captures of the numeric patterns consist of characters from
`[0-9.-]` only.  On that alphabet Python's `float()` accepts exactly an
optional leading minus sign followed by `digits`, `digits '.' digits*` or
`'.' digits⁺`, and raises `ValueError` otherwise (no second sign, no
second dot, at least one digit).  The value is modelled as an exact
rational. -/

/-- Numeric value of a list of decimal digits (most significant first). -/
def digitsVal (l : List Char) : Nat :=
  l.foldl (fun a c => a * 10 + (c.toNat - 48)) 0

/-- Python `float()` on an unsigned string over `[0-9.]`:
`digits`, `digits.digits*` or `.digits⁺`, else `ValueError` (`none`). -/
def pyFloatUnsigned (t : List Char) : Option Rat :=
  let ip := t.takeWhile Char.isDigit
  match t.drop ip.length with
  | [] => if ip.isEmpty then none else some (digitsVal ip)
  | '.' :: frac =>
    if frac.all Char.isDigit && !(ip.isEmpty && frac.isEmpty) then
      some ((digitsVal ip : Rat) + (digitsVal frac : Rat) / (10 : Rat) ^ frac.length)
    else none
  | _ => none

/-- Python `float()` on a string over `[0-9.-]`: one optional leading
minus, then an unsigned decimal literal; `none` models `ValueError`. -/
def pyFloatNum (s : List Char) : Option Rat :=
  match s with
  | '-' :: t => (pyFloatUnsigned t).map (fun q => -q)
  | t => pyFloatUnsigned t

/-! ## The extraction (`dashboard.py` lines 519-535) -/

/-- Uncaught Python exceptions relevant to the modelled code paths. -/
inductive PyErr where
  | valueError
  | fileNotFoundError
  | imageError
  deriving DecidableEq, Repr

/-- The `rain_metrics` dictionary: the three keys the code can assign,
each present (`some`) exactly when the code assigned it. -/
structure RainMetrics where
  correlation : Option Rat
  elasticity : Option Rat
  wettest_month : Option (List Char)
  deriving DecidableEq, Repr

/-- The metric-extraction block of `dashboard.py` (lines 519-535): start
from the empty dictionary, and under `if rain_report:` run the three
`re.search` scans in sequence, assigning `float(group(1))` for the two
numeric patterns and the raw group for the month pattern.  `float` on a
matched but unparseable capture raises `ValueError`, which no surrounding
`try` catches: this is modelled by `Except.error .valueError`, which
aborts the block exactly where the exception would. -/
def extractRainMetrics (rain_report : List Char) : Except PyErr RainMetrics :=
  if rain_report.isEmpty then .ok ⟨none, none, none⟩
  else
    match corrSearch rain_report with
    | some g =>
      match pyFloatNum g with
      | none => .error .valueError
      | some cv =>
        match elasticSearch rain_report with
        | some g2 =>
          match pyFloatNum g2 with
          | none => .error .valueError
          | some ev => .ok ⟨some cv, some ev, monthSearch rain_report⟩
        | none => .ok ⟨some cv, none, monthSearch rain_report⟩
    | none =>
      match elasticSearch rain_report with
      | some g2 =>
        match pyFloatNum g2 with
        | none => .error .valueError
        | some ev => .ok ⟨none, some ev, monthSearch rain_report⟩
      | none => .ok ⟨none, none, monthSearch rain_report⟩

/-- The extraction block threaded through an ambient world state of an
arbitrary type `σ` (filesystem, Streamlit session, globals).  The block's
statements reference only the local `rain_report` and `rain_metrics`, so
the translation passes the state through untouched; `σ` being an
arbitrary type makes the independence checkable rather than assumed. -/
def extractRainMetricsRun {σ : Type} (st : σ) (rain_report : List Char) :
    (Except PyErr RainMetrics) × σ :=
  (extractRainMetrics rain_report, st)

/-- Model of `rain_metrics.get('elasticity', -0.40)` (`dashboard.py` line 545). -/
def elasticDisplayVal (m : RainMetrics) : Rat :=
  m.elasticity.getD (-(40 : Rat) / 100)

/-- Model of `rain_metrics.get('correlation', 0.041)` (`dashboard.py` line 542). -/
def corrDisplayVal (m : RainMetrics) : Rat :=
  m.correlation.getD ((41 : Rat) / 1000)

/-! ## Occurrence helpers (used to state the claims, not by the code) -/

/-- The pattern `pat` occurs in `s` at position `i`. -/
def occursAt (pat s : List Char) (i : Nat) : Prop :=
  pat <+: s.drop i

/-- Decidable check that `pat` occurs in `s` at no position other than
`k`; sound for nonempty `pat` because an occurrence needs `i < s.length`. -/
def onlyOccurrenceAt (pat s : List Char) (k : Nat) : Bool :=
  (List.range (s.length + 1)).all
    (fun i => !(pat.isPrefixOf (s.drop i)) || i == k)

/-- Decidable check that `pat` occurs nowhere in `s`. -/
def neverOccurs (pat s : List Char) : Bool :=
  (List.range (s.length + 1)).all (fun i => !(pat.isPrefixOf (s.drop i)))

/-- Decidable check that `pat` occurs somewhere in `s` (is a substring). -/
def occursWithin (pat s : List Char) : Bool :=
  (List.range (s.length + 1)).any (fun i => pat.isPrefixOf (s.drop i))

/-- Join a list of lines into a report text, each line terminated by a
newline. -/
def joinLines (L : List (List Char)) : List Char :=
  L.flatMap (fun l => l ++ ['\n'])

/-! ## Streamlit effects, `load_image`, `display_plot` (lines 111-155) -/

/-- Streamlit calls the modelled code can emit, as an effect trace. -/
inductive StEffect where
  | warn
  | errorBox
  | imageShow
  | markdown
  | spinnerRun
  deriving DecidableEq, Repr

/-- Model of `load_image` (lines 111-122): if the path exists, `Image.open` it,
catching any exception with a warning and `None`; otherwise warn and
return `None`.  The filesystem is the map `fs` from path to bytes, and
PIL's decoder is the parameter `openImage`.  The `st.cache_data`
decorator only memoises results across calls and is not modelled; the
claims are about a single call. -/
def load_image {Img : Type} (fs : String → Option (List Nat))
    (openImage : List Nat → Except PyErr Img) (image_path : String) :
    Option Img × List StEffect :=
  match fs image_path with
  | some bs =>
    match openImage bs with
    | .ok img => (some img, [])
    | .error _ => (none, [.warn])
  | none => (none, [.warn])

/-- Model of `display_plot` (lines 141-155): a title markdown, an optional
description markdown, a spinner, then `load_image`; show the image and
return `True` if one was loaded, else show an error box and return
`False`. -/
def display_plot {Img : Type} (fs : String → Option (List Nat))
    (openImage : List Nat → Except PyErr Img) (image_path : String)
    (title description : String) : Bool × List StEffect :=
  let header : List StEffect :=
    if description.isEmpty then [.markdown] else [.markdown, .markdown]
  match load_image fs openImage image_path with
  | (some _, effs) => (true, header ++ [.spinnerRun] ++ effs ++ [.imageShow])
  | (none, effs) => (false, header ++ [.spinnerRun] ++ effs ++ [.errorBox])

/-! ## UTF-8 and latin-1 decoding, `safe_read_text` (lines 125-138) -/

/-- UTF-8 continuation byte: `0x80 ≤ b < 0xC0`. -/
def isCont (b : Nat) : Bool := 0x80 ≤ b && b < 0xC0

/-- Completion of a 2-byte UTF-8 sequence with lead byte `b`: check the
continuation byte and prepend the decoded scalar to the decoded tail
`t`. -/
def utf8Cont2 (b b2 : Nat) (t : Option (List Char)) : Option (List Char) :=
  if isCont b2 then
    t.map (fun cs => Char.ofNat ((b - 0xC0) * 64 + (b2 - 0x80)) :: cs)
  else none

/-- Completion of a 3-byte UTF-8 sequence: check the continuation bytes,
reject overlong values (below `0x800`) and surrogates, and prepend the
decoded scalar to the decoded tail `t`. -/
def utf8Cont3 (b b2 b3 : Nat) (t : Option (List Char)) : Option (List Char) :=
  if isCont b2 && isCont b3 then
    if (b - 0xE0) * 4096 + (b2 - 0x80) * 64 + (b3 - 0x80) < 0x800 ∨
        (0xD800 ≤ (b - 0xE0) * 4096 + (b2 - 0x80) * 64 + (b3 - 0x80) ∧
          (b - 0xE0) * 4096 + (b2 - 0x80) * 64 + (b3 - 0x80) < 0xE000) then
      none
    else
      t.map (fun cs =>
        Char.ofNat ((b - 0xE0) * 4096 + (b2 - 0x80) * 64 + (b3 - 0x80)) :: cs)
  else none

/-- Completion of a 4-byte UTF-8 sequence: check the continuation bytes,
reject overlong values (below `0x10000`) and values above `0x10FFFF`, and
prepend the decoded scalar to the decoded tail `t`. -/
def utf8Cont4 (b b2 b3 b4 : Nat) (t : Option (List Char)) : Option (List Char) :=
  if isCont b2 && isCont b3 && isCont b4 then
    if (b - 0xF0) * 262144 + (b2 - 0x80) * 4096 + (b3 - 0x80) * 64 +
          (b4 - 0x80) < 0x10000 ∨
        0x10FFFF <
          (b - 0xF0) * 262144 + (b2 - 0x80) * 4096 + (b3 - 0x80) * 64 +
            (b4 - 0x80) then
      none
    else
      t.map (fun cs =>
        Char.ofNat ((b - 0xF0) * 262144 + (b2 - 0x80) * 4096 +
          (b3 - 0x80) * 64 + (b4 - 0x80)) :: cs)
  else none

/-- Strict UTF-8 decoding of a byte sequence, as CPython's `utf-8` codec
performs it: ASCII bytes stand alone; lead bytes `0xC2-0xDF`,
`0xE0-0xEF` and `0xF0-0xF4` start 2-, 3- and 4-byte sequences completed
by `utf8Cont2`/`utf8Cont3`/`utf8Cont4`; everything else — stray
continuation bytes, the overlong lead bytes `0xC0`/`0xC1`, lead bytes
above `0xF4`, truncated sequences (the short list arms) — fails.
Overlong values, surrogates and values above `0x10FFFF` are rejected by
the completion helpers.  `none` models `UnicodeDecodeError`.  The list
arms are split by length so that every multi-byte form sees its
continuation bytes as direct patterns. -/
def utf8Decode : List Nat → Option (List Char)
  | [] => some []
  | [b] =>
    if b < 0x80 then (utf8Decode []).map (fun cs => Char.ofNat b :: cs)
    else none
  | [b, b2] =>
    if b < 0x80 then (utf8Decode [b2]).map (fun cs => Char.ofNat b :: cs)
    else if b < 0xC2 then none
    else if b < 0xE0 then utf8Cont2 b b2 (utf8Decode [])
    else none
  | [b, b2, b3] =>
    if b < 0x80 then (utf8Decode [b2, b3]).map (fun cs => Char.ofNat b :: cs)
    else if b < 0xC2 then none
    else if b < 0xE0 then utf8Cont2 b b2 (utf8Decode [b3])
    else if b < 0xF0 then utf8Cont3 b b2 b3 (utf8Decode [])
    else none
  | b :: b2 :: b3 :: b4 :: rest =>
    if b < 0x80 then
      (utf8Decode (b2 :: b3 :: b4 :: rest)).map (fun cs => Char.ofNat b :: cs)
    else if b < 0xC2 then none
    else if b < 0xE0 then utf8Cont2 b b2 (utf8Decode (b3 :: b4 :: rest))
    else if b < 0xF0 then utf8Cont3 b b2 b3 (utf8Decode (b4 :: rest))
    else if b < 0xF5 then utf8Cont4 b b2 b3 b4 (utf8Decode rest)
    else none

/-- UTF-8 encoding of one scalar value. -/
def utf8EncodeChar (c : Char) : List Nat :=
  if c.toNat < 0x80 then [c.toNat]
  else if c.toNat < 0x800 then [0xC0 + c.toNat / 64, 0x80 + c.toNat % 64]
  else if c.toNat < 0x10000 then
    [0xE0 + c.toNat / 4096, 0x80 + c.toNat / 64 % 64, 0x80 + c.toNat % 64]
  else
    [0xF0 + c.toNat / 262144, 0x80 + c.toNat / 4096 % 64,
      0x80 + c.toNat / 64 % 64, 0x80 + c.toNat % 64]

/-- UTF-8 encoding of a string. -/
def utf8Encode (cs : List Char) : List Nat := cs.flatMap utf8EncodeChar

/-- Latin-1 decoding: every byte below 256 decodes to the code point of
the same value; bytes outside that range cannot occur in a file and make
the decode fail (CPython's `latin-1` codec accepts every byte). -/
def latin1Decode (bs : List Nat) : Option (List Char) :=
  if bs.all (· < 256) then some (bs.map Char.ofNat) else none

/-- Model of `safe_read_text` (lines 125-138): open and read with UTF-8; on
`UnicodeDecodeError` retry with latin-1; if that second attempt also
fails, warn and return the empty string.  Opening a missing file raises
`FileNotFoundError`, which the `except UnicodeDecodeError` clause does
not catch, so it propagates to the caller. -/
def safe_read_text (fs : String → Option (List Nat)) (file_path : String) :
    Except PyErr (List Char) × List StEffect :=
  match fs file_path with
  | none => (.error .fileNotFoundError, [])
  | some bs =>
    match utf8Decode bs with
    | some s => (.ok s, [])
    | none =>
      match latin1Decode bs with
      | some s => (.ok s, [])
      | none => (.ok [], [.warn])

/-! ## Helper lemmas about `matchCap` and `reSearch` -/

theorem isPrefixOf_iff {l1 l2 : List Char} :
    l1.isPrefixOf l2 = true ↔ l1 <+: l2 :=
  List.isPrefixOf_iff_prefix

theorem matchCap_none_of_not_leading {lit : List Char} {cls : Char → Bool}
    {suf : Option Char} {s : List Char} (h : ¬ lit <+: s) :
    matchCap lit cls suf s = none := by
  rw [matchCap, if_neg]
  simpa [isPrefixOf_iff] using h

theorem matchCap_some_leading {lit : List Char} {cls : Char → Bool}
    {suf : Option Char} {s g : List Char}
    (h : matchCap lit cls suf s = some g) : lit <+: s := by
  by_contra hn
  rw [matchCap_none_of_not_leading hn] at h
  exact Option.noConfusion h

/-- Unfolding of `matchCap` at a position where the literal is a prefix. -/
theorem matchCap_append {lit : List Char} {cls : Char → Bool}
    {suf : Option Char} (t : List Char) :
    matchCap lit cls suf (lit ++ t) =
      (if (t.takeWhile cls).isEmpty then none
       else
         match suf with
         | none => some (t.takeWhile cls)
         | some c =>
           match t.dropWhile cls with
           | e :: _ => if e = c then some (t.takeWhile cls) else none
           | [] => none) := by
  rw [matchCap, if_pos (isPrefixOf_iff.mpr (List.prefix_append lit t))]
  rw [List.drop_left]

theorem takeWhile_append_stop {cls : Char → Bool} {x : Char}
    (hx : cls x = false) (t w : List Char) :
    (t ++ x :: w).takeWhile cls = t.takeWhile cls := by
  induction t with
  | nil => simp [List.takeWhile_cons, hx]
  | cons c t ih =>
    by_cases hc : cls c = true
    · simp [List.takeWhile_cons, hc, ih]
    · simp [List.takeWhile_cons, hc]

theorem dropWhile_append_stop {cls : Char → Bool} {x : Char}
    (hx : cls x = false) (t w : List Char) :
    (t ++ x :: w).dropWhile cls = t.dropWhile cls ++ x :: w := by
  induction t with
  | nil => simp [List.dropWhile_cons, hx]
  | cons c t ih =>
    by_cases hc : cls c = true
    · simp [List.dropWhile_cons, hc, ih]
    · simp [List.dropWhile_cons, hc]

theorem not_prefix_append_sep {lit u w : List Char} {x : Char}
    (hx : x ∉ lit) (h : ¬ lit <+: u) : ¬ lit <+: u ++ x :: w := by
  intro hp
  rcases Nat.lt_or_ge u.length lit.length with hlen | hlen
  · apply hx
    have htake := List.prefix_iff_eq_take.mp hp
    rw [List.take_append_eq_append_take] at htake
    have h1 : 1 ≤ lit.length - u.length := by omega
    rcases Nat.exists_eq_add_of_le h1 with ⟨k, hk⟩
    rw [hk] at htake
    rw [Nat.add_comm 1 k, List.take_succ_cons] at htake
    rw [htake]
    exact List.mem_append_right _ (List.mem_cons_self x _)
  · apply h
    have htake := List.prefix_iff_eq_take.mp hp
    rw [List.take_append_eq_append_take, Nat.sub_eq_zero_of_le hlen,
      List.take_zero, List.append_nil] at htake
    exact List.prefix_iff_eq_take.mpr htake

/-- A `matchCap` attempt is unchanged by text that lies beyond a separator
character that is not in the literal, not in the class, and not the
trailing literal. -/
theorem matchCap_append_sep {lit : List Char} {cls : Char → Bool}
    {suf : Option Char} {x : Char} (hx1 : x ∉ lit) (hx2 : cls x = false)
    (hx3 : ∀ c, suf = some c → c ≠ x) (u w : List Char) :
    matchCap lit cls suf (u ++ x :: w) = matchCap lit cls suf u := by
  by_cases hp : lit <+: u
  · rcases hp with ⟨t, rfl⟩
    rw [List.append_assoc, matchCap_append, matchCap_append,
      takeWhile_append_stop hx2, dropWhile_append_stop hx2]
    by_cases hg : (t.takeWhile cls).isEmpty
    · rw [if_pos hg, if_pos hg]
    · rw [if_neg hg, if_neg hg]
      cases suf with
      | none => rfl
      | some c =>
        cases hd : t.dropWhile cls with
        | nil =>
          simp only [List.nil_append]
          rw [if_neg (fun hcx => (hx3 c rfl) hcx.symm)]
        | cons e d => simp only [List.cons_append]
  · rw [matchCap_none_of_not_leading hp,
      matchCap_none_of_not_leading (not_prefix_append_sep hx1 hp)]


theorem reSearch_nil_of_ne {lit : List Char} {cls : Char → Bool}
    {suf : Option Char} (hlit : lit ≠ []) :
    reSearch lit cls suf [] = none := by
  rw [reSearch, matchCap_none_of_not_leading]
  intro hp
  exact hlit (List.prefix_nil.mp hp)

theorem reSearch_cons {lit : List Char} {cls : Char → Bool}
    {suf : Option Char} (c : Char) (rest : List Char) :
    reSearch lit cls suf (c :: rest) =
      match matchCap lit cls suf (c :: rest) with
      | some g => some g
      | none => reSearch lit cls suf rest := rfl

theorem matchCap_cons_none {lit : List Char} {cls : Char → Bool}
    {suf : Option Char} {x : Char} {w : List Char}
    (hlit : lit ≠ []) (hx : x ∉ lit) :
    matchCap lit cls suf (x :: w) = none := by
  apply matchCap_none_of_not_leading
  intro hp
  cases lit with
  | nil => exact hlit rfl
  | cons l ls =>
    rcases hp with ⟨t, ht⟩
    rw [List.cons_append] at ht
    injection ht with h1 _
    exact hx (h1 ▸ List.mem_cons_self l ls)

/-- A leftmost-match search over text split by a separator character runs
left part first, then right part. -/
theorem reSearch_append_sep {lit : List Char} {cls : Char → Bool}
    {suf : Option Char} {x : Char} (hlit : lit ≠ []) (hx1 : x ∉ lit)
    (hx2 : cls x = false) (hx3 : ∀ c, suf = some c → c ≠ x)
    (u w : List Char) :
    reSearch lit cls suf (u ++ x :: w) =
      match reSearch lit cls suf u with
      | some g => some g
      | none => reSearch lit cls suf w := by
  induction u with
  | nil =>
    rw [List.nil_append, reSearch_cons, matchCap_cons_none hlit hx1,
      reSearch_nil_of_ne hlit]
  | cons c u ih =>
    have hA := matchCap_append_sep hx1 hx2 hx3 (c :: u) w
    rw [List.cons_append] at hA
    rw [List.cons_append, reSearch_cons, hA, reSearch_cons]
    cases matchCap lit cls suf (c :: u) with
    | some g => rfl
    | none => exact ih

theorem infix_iff_exists_occursAt {lit s : List Char} :
    lit <:+: s ↔ ∃ i, occursAt lit s i := by
  constructor
  · rintro ⟨u, v, rfl⟩
    refine ⟨u.length, ?_⟩
    rw [occursAt, List.append_assoc, List.drop_left]
    exact List.prefix_append lit v
  · rintro ⟨i, hi⟩
    rcases hi with ⟨t, ht⟩
    exact ⟨s.take i, t, by rw [List.append_assoc, ht, List.take_append_drop]⟩

theorem reSearch_none_of_no_occurrence {lit : List Char} {cls : Char → Bool}
    {suf : Option Char} {s : List Char} (hlit : lit ≠ [])
    (h : ¬ lit <:+: s) : reSearch lit cls suf s = none := by
  induction s with
  | nil => exact reSearch_nil_of_ne hlit
  | cons c rest ih =>
    rw [reSearch_cons]
    have hmc : matchCap lit cls suf (c :: rest) = none := by
      apply matchCap_none_of_not_leading
      intro hp
      exact h hp.isInfix
    rw [hmc]
    exact ih (fun hin => h (List.infix_cons hin))

/-- Characterization of `reSearch` as the leftmost match: it returns `g`
exactly when some position matches with capture `g` and no earlier
position matches at all. -/
theorem reSearch_eq_some_iff {lit : List Char} {cls : Char → Bool}
    {suf : Option Char} {s g : List Char} :
    reSearch lit cls suf s = some g ↔
      ∃ i, matchCap lit cls suf (s.drop i) = some g ∧
        ∀ j < i, matchCap lit cls suf (s.drop j) = none := by
  induction s with
  | nil =>
    rw [reSearch]
    constructor
    · intro h
      exact ⟨0, h, fun j hj => absurd hj (Nat.not_lt_zero j)⟩
    · rintro ⟨i, hi, _⟩
      rwa [List.drop_nil] at hi
  | cons c rest ih =>
    rw [reSearch_cons]
    cases hmc : matchCap lit cls suf (c :: rest) with
    | some g' =>
      constructor
      · intro h
        refine ⟨0, ?_, fun j hj => absurd hj (Nat.not_lt_zero j)⟩
        rw [List.drop_zero, hmc]
        exact h
      · rintro ⟨i, hi, hj⟩
        cases i with
        | zero => rw [List.drop_zero, hmc] at hi; exact hi
        | succ i =>
          have := hj 0 (Nat.succ_pos i)
          rw [List.drop_zero, hmc] at this
          exact Option.noConfusion this
    | none =>
      rw [ih]
      constructor
      · rintro ⟨i, hi, hj⟩
        refine ⟨i + 1, by simpa using hi, ?_⟩
        intro j hj'
        cases j with
        | zero => rw [List.drop_zero]; exact hmc
        | succ j => simpa using hj j (Nat.lt_of_succ_lt_succ hj')
      · rintro ⟨i, hi, hj⟩
        cases i with
        | zero => rw [List.drop_zero, hmc] at hi; exact Option.noConfusion hi
        | succ i =>
          refine ⟨i, by simpa using hi, ?_⟩
          intro j hj'
          have := hj (j + 1) (Nat.succ_lt_succ hj')
          simpa using this

theorem joinLines_cons (l : List Char) (L : List (List Char)) :
    joinLines (l :: L) = l ++ '\n' :: joinLines L := by
  rw [joinLines, List.flatMap_cons, List.append_assoc]
  rfl

/-- Over newline-joined lines, the leftmost-match search is the first
line whose own search succeeds. -/
theorem reSearch_joinLines {lit : List Char} {cls : Char → Bool}
    {suf : Option Char} (hlit : lit ≠ []) (hx1 : '\n' ∉ lit)
    (hx2 : cls '\n' = false) (hx3 : ∀ c, suf = some c → c ≠ '\n')
    (L : List (List Char)) :
    reSearch lit cls suf (joinLines L) =
      L.findSome? (reSearch lit cls suf) := by
  induction L with
  | nil =>
    rw [joinLines, List.flatMap_nil, List.findSome?_nil,
      reSearch_nil_of_ne hlit]
  | cons l L ih =>
    rw [joinLines_cons, reSearch_append_sep hlit hx1 hx2 hx3,
      List.findSome?_cons, ih]
    cases reSearch lit cls suf l with
    | some g => rfl
    | none => rfl

theorem findSome?_eq_findSome?_filter {α β : Type} (f : α → Option β)
    (p : α → Bool) (L : List α)
    (h : ∀ a ∈ L, p a = false → f a = none) :
    L.findSome? f = (L.filter p).findSome? f := by
  induction L with
  | nil => rfl
  | cons a L ih =>
    rw [List.findSome?_cons, List.filter_cons]
    by_cases hp : p a = true
    · rw [if_pos hp, List.findSome?_cons]
      cases f a with
      | some b => rfl
      | none => exact ih (fun x hx => h x (List.mem_cons_of_mem a hx))
    · rw [if_neg hp, h a (List.mem_cons_self a L) (by simpa using hp)]
      exact ih (fun x hx => h x (List.mem_cons_of_mem a hx))

theorem occursAt_lt_length {lit s : List Char} {i : Nat} (hlit : lit ≠ [])
    (h : occursAt lit s i) : i < s.length := by
  by_contra hn
  rw [occursAt, List.drop_eq_nil_iff.mpr (by omega)] at h
  exact hlit (List.prefix_nil.mp h)

theorem onlyOccurrenceAt_sound {lit s : List Char} {k : Nat}
    (hlit : lit ≠ []) (h : onlyOccurrenceAt lit s k = true) :
    ∀ i, occursAt lit s i → i = k := by
  intro i hi
  have hlt := occursAt_lt_length hlit hi
  have hmem : i ∈ List.range (s.length + 1) := List.mem_range.mpr (by omega)
  have := List.all_eq_true.mp h i hmem
  rcases Bool.or_eq_true_iff.mp this with hcase | hcase
  · exfalso
    rw [Bool.not_eq_eq_eq_not, Bool.not_true] at hcase
    rw [occursAt, ← isPrefixOf_iff, hcase] at hi
    exact Bool.false_ne_true hi
  · exact Nat.eq_of_beq_eq_true (by simpa using hcase)

theorem neverOccurs_sound {lit s : List Char} (hlit : lit ≠ [])
    (h : neverOccurs lit s = true) : ∀ i, ¬ occursAt lit s i := by
  intro i hi
  have hlt := occursAt_lt_length hlit hi
  have hmem : i ∈ List.range (s.length + 1) := List.mem_range.mpr (by omega)
  have := List.all_eq_true.mp h i hmem
  rw [Bool.not_eq_eq_eq_not, Bool.not_true] at this
  rw [occursAt, ← isPrefixOf_iff, this] at hi
  exact Bool.false_ne_true hi

/-! ## Helper lemmas about the extraction -/

theorem corrSearch_nil : corrSearch [] = none := by decide

theorem elasticSearch_nil : elasticSearch [] = none := by decide

theorem monthSearch_nil : monthSearch [] = none := by decide

/-- On a successful extraction, each field of the dictionary is exactly
the parse of its own pattern's leftmost capture, independently of the
other two patterns. -/
theorem extract_ok_fields {s : List Char} {m : RainMetrics}
    (h : extractRainMetrics s = .ok m) :
    m.correlation = (corrSearch s).bind pyFloatNum ∧
    m.elasticity = (elasticSearch s).bind pyFloatNum ∧
    m.wettest_month = monthSearch s := by
  by_cases hs : s.isEmpty = true
  · have hnil : s = [] := List.isEmpty_iff.mp hs
    subst hnil
    have hval : extractRainMetrics [] = .ok ⟨none, none, none⟩ := rfl
    rw [hval] at h
    injection h with h
    subst h
    rw [corrSearch_nil, elasticSearch_nil, monthSearch_nil]
    exact ⟨rfl, rfl, rfl⟩
  · rw [extractRainMetrics, if_neg hs] at h
    rcases hc : corrSearch s with _ | g <;> simp only [hc] at h
    · rcases he : elasticSearch s with _ | g2 <;> simp only [he] at h
      · injection h with h
        subst h
        exact ⟨rfl, rfl, rfl⟩
      · rcases hp2 : pyFloatNum g2 with _ | v2 <;> simp only [hp2] at h
        · exact Except.noConfusion h
        · injection h with h
          subst h
          simp [hp2]
    · rcases hp : pyFloatNum g with _ | v <;> simp only [hp] at h
      · exact Except.noConfusion h
      · rcases he : elasticSearch s with _ | g2 <;> simp only [he] at h
        · injection h with h
          subst h
          simp [hp]
        · rcases hp2 : pyFloatNum g2 with _ | v2 <;> simp only [hp2] at h
          · exact Except.noConfusion h
          · injection h with h
            subst h
            simp [hp, hp2]

/-- A matched correlation capture that `float()` rejects aborts the whole
extraction with an uncaught `ValueError`. -/
theorem extract_error_of_malformed_corr {s g : List Char}
    (hc : corrSearch s = some g) (hp : pyFloatNum g = none) :
    extractRainMetrics s = .error .valueError := by
  have hs : ¬ s.isEmpty = true := by
    intro hs
    rw [List.isEmpty_iff.mp hs, corrSearch_nil] at hc
    exact Option.noConfusion hc
  rw [extractRainMetrics, if_neg hs]
  simp only [hc, hp]

/-- A matched elasticity capture that `float()` rejects means the
extraction aborts with an uncaught `ValueError` (either at the
correlation field or at the elasticity field). -/
theorem extract_error_of_malformed_elastic {s g : List Char}
    (he : elasticSearch s = some g) (hp : pyFloatNum g = none) :
    ∃ e, extractRainMetrics s = .error e := by
  have hs : ¬ s.isEmpty = true := by
    intro hs
    rw [List.isEmpty_iff.mp hs, elasticSearch_nil] at he
    exact Option.noConfusion he
  rw [extractRainMetrics, if_neg hs]
  rcases hc : corrSearch s with _ | g1 <;> simp only [hc]
  · simp only [he, hp]
    exact ⟨.valueError, rfl⟩
  · rcases hp1 : pyFloatNum g1 with _ | v <;> simp only [hp1]
    · exact ⟨.valueError, rfl⟩
    · simp only [he, hp]
      exact ⟨.valueError, rfl⟩

/-! ## Concrete `float()` parses used by the claims -/

theorem pyFloatNum_0041 : pyFloatNum ['0', '.', '0', '4', '1'] = some ((41 : Rat) / 1000) := by
  have h : pyFloatNum ['0', '.', '0', '4', '1'] =
      some ((digitsVal ['0'] : Rat) + (digitsVal ['0', '4', '1'] : Rat) / (10 : Rat) ^ 3) := rfl
  rw [h, show digitsVal ['0'] = 0 from by decide,
    show digitsVal ['0', '4', '1'] = 41 from by decide]
  norm_num

theorem pyFloatNum_neg040 : pyFloatNum ['-', '0', '.', '4', '0'] = some (-(40 : Rat) / 100) := by
  have h : pyFloatNum ['-', '0', '.', '4', '0'] =
      some (-((digitsVal ['0'] : Rat) + (digitsVal ['4', '0'] : Rat) / (10 : Rat) ^ 2)) := rfl
  rw [h, show digitsVal ['0'] = 0 from by decide,
    show digitsVal ['4', '0'] = 40 from by decide]
  norm_num

theorem pyFloatNum_seven : pyFloatNum ['7'] = some (7 : Rat) := by
  have h : pyFloatNum ['7'] = some ((digitsVal ['7'] : Rat)) := rfl
  rw [h, show digitsVal ['7'] = 7 from by decide]
  norm_num

theorem pyFloatNum_05 : pyFloatNum ['0', '.', '5'] = some ((1 : Rat) / 2) := by
  have h : pyFloatNum ['0', '.', '5'] =
      some ((digitsVal ['0'] : Rat) + (digitsVal ['5'] : Rat) / (10 : Rat) ^ 1) := rfl
  rw [h, show digitsVal ['0'] = 0 from by decide, show digitsVal ['5'] = 5 from by decide]
  norm_num

theorem takeWhile_run {cls : Char → Bool} {g b : List Char}
    (hcls : ∀ c ∈ g, cls c = true) (hb : ∀ e t, b = e :: t → cls e = false) :
    (g ++ b).takeWhile cls = g := by
  cases b with
  | nil => rw [List.append_nil]; exact List.takeWhile_eq_self_iff.mpr hcls
  | cons e t =>
    rw [takeWhile_append_stop (hb e t rfl)]
    exact List.takeWhile_eq_self_iff.mpr hcls

/-- The pattern `lit cls⁺` matches at a position where the text reads
`lit`, then a nonempty all-class run `g`, then text that does not start
with a class character; the capture is exactly `g`. -/
theorem matchCap_run {lit : List Char} {cls : Char → Bool} {g b : List Char}
    (hg : g ≠ []) (hcls : ∀ c ∈ g, cls c = true)
    (hb : ∀ e t, b = e :: t → cls e = false) :
    matchCap lit cls none (lit ++ (g ++ b)) = some g := by
  rw [matchCap_append, takeWhile_run hcls hb,
    if_neg (by simpa [List.isEmpty_iff] using hg)]

/-- When the label occurs at exactly one position of the text and the
text there reads label-run-boundary, the leftmost-match search returns
that run. -/
theorem reSearch_only_occurrence {lit : List Char} {cls : Char → Bool}
    {a g b : List Char} (hg : g ≠ []) (hcls : ∀ c ∈ g, cls c = true)
    (hb : ∀ e t, b = e :: t → cls e = false)
    (huniq : ∀ i, occursAt lit (a ++ (lit ++ (g ++ b))) i → i = a.length) :
    reSearch lit cls none (a ++ (lit ++ (g ++ b))) = some g := by
  apply reSearch_eq_some_iff.mpr
  refine ⟨a.length, ?_, ?_⟩
  · rw [List.drop_left]
    exact matchCap_run hg hcls hb
  · intro j hj
    by_contra hne
    rcases Option.ne_none_iff_exists'.mp hne with ⟨g', hg'⟩
    have hocc : occursAt lit (a ++ (lit ++ (g ++ b))) j :=
      matchCap_some_leading hg'
    exact absurd (huniq j hocc) (Nat.ne_of_lt hj)

/-! ## Helper lemmas about UTF-8 and latin-1 -/

theorem toNat_ofNat_of_valid {n : Nat} (h : n.isValidChar) :
    (Char.ofNat n).toNat = n := by
  simp [Char.ofNat, h, Char.ofNatAux, Char.toNat, UInt32.toNat,
    BitVec.toNat_ofNatLt]

theorem encodeChar_ascii {b : Nat} (h : b < 0x80) :
    utf8EncodeChar (Char.ofNat b) = [b] := by
  have htn := toNat_ofNat_of_valid (n := b) (Or.inl (by omega))
  rw [utf8EncodeChar, htn, if_pos h]

theorem encodeChar_two {b b2 : Nat} (h2 : 0xC2 ≤ b) (h3 : b < 0xE0)
    (hc : 0x80 ≤ b2 ∧ b2 < 0xC0) :
    utf8EncodeChar (Char.ofNat ((b - 0xC0) * 64 + (b2 - 0x80))) = [b, b2] := by
  have htn := toNat_ofNat_of_valid (n := (b - 0xC0) * 64 + (b2 - 0x80))
    (Or.inl (by omega))
  rw [utf8EncodeChar, htn, if_neg (by omega), if_pos (by omega)]
  simp only [List.cons.injEq, and_true]
  constructor <;> omega

theorem encodeChar_three {b b2 b3 : Nat} (h3 : 0xE0 ≤ b) (h4 : b < 0xF0)
    (hc2 : 0x80 ≤ b2 ∧ b2 < 0xC0) (hc3 : 0x80 ≤ b3 ∧ b3 < 0xC0)
    (hv : ¬((b - 0xE0) * 4096 + (b2 - 0x80) * 64 + (b3 - 0x80) < 0x800 ∨
      (0xD800 ≤ (b - 0xE0) * 4096 + (b2 - 0x80) * 64 + (b3 - 0x80) ∧
        (b - 0xE0) * 4096 + (b2 - 0x80) * 64 + (b3 - 0x80) < 0xE000))) :
    utf8EncodeChar (Char.ofNat ((b - 0xE0) * 4096 + (b2 - 0x80) * 64 + (b3 - 0x80))) =
      [b, b2, b3] := by
  push_neg at hv
  have htn := toNat_ofNat_of_valid
    (n := (b - 0xE0) * 4096 + (b2 - 0x80) * 64 + (b3 - 0x80))
    (by rw [Nat.isValidChar]; omega)
  rw [utf8EncodeChar, htn, if_neg (by omega), if_neg (by omega),
    if_pos (by omega)]
  simp only [List.cons.injEq, and_true]
  refine ⟨by omega, by omega, by omega⟩

theorem encodeChar_four {b b2 b3 b4 : Nat} (h4 : 0xF0 ≤ b) (h5 : b < 0xF5)
    (hc2 : 0x80 ≤ b2 ∧ b2 < 0xC0) (hc3 : 0x80 ≤ b3 ∧ b3 < 0xC0)
    (hc4 : 0x80 ≤ b4 ∧ b4 < 0xC0)
    (hv : ¬((b - 0xF0) * 262144 + (b2 - 0x80) * 4096 + (b3 - 0x80) * 64 +
        (b4 - 0x80) < 0x10000 ∨
      0x10FFFF < (b - 0xF0) * 262144 + (b2 - 0x80) * 4096 + (b3 - 0x80) * 64 +
        (b4 - 0x80))) :
    utf8EncodeChar (Char.ofNat ((b - 0xF0) * 262144 + (b2 - 0x80) * 4096 +
      (b3 - 0x80) * 64 + (b4 - 0x80))) = [b, b2, b3, b4] := by
  push_neg at hv
  have htn := toNat_ofNat_of_valid
    (n := (b - 0xF0) * 262144 + (b2 - 0x80) * 4096 + (b3 - 0x80) * 64 + (b4 - 0x80))
    (by rw [Nat.isValidChar]; omega)
  rw [utf8EncodeChar, htn, if_neg (by omega), if_neg (by omega),
    if_neg (by omega)]
  simp only [List.cons.injEq, and_true]
  refine ⟨by omega, by omega, by omega, by omega⟩

theorem utf8Cont2_some {b b2 : Nat} {t : Option (List Char)} {cs : List Char}
    (h : utf8Cont2 b b2 t = some cs) :
    (0x80 ≤ b2 ∧ b2 < 0xC0) ∧
      ∃ cs', t = some cs' ∧
        cs = Char.ofNat ((b - 0xC0) * 64 + (b2 - 0x80)) :: cs' := by
  rw [utf8Cont2] at h
  by_cases hc : isCont b2 = true
  · rw [if_pos hc] at h
    rcases Option.map_eq_some'.mp h with ⟨cs', ht, hcs⟩
    exact ⟨by simpa [isCont] using hc, cs', ht, hcs.symm⟩
  · rw [if_neg hc] at h
    exact absurd h (by simp)

theorem utf8Cont3_some {b b2 b3 : Nat} {t : Option (List Char)} {cs : List Char}
    (h : utf8Cont3 b b2 b3 t = some cs) :
    ((0x80 ≤ b2 ∧ b2 < 0xC0) ∧ (0x80 ≤ b3 ∧ b3 < 0xC0)) ∧
      ¬((b - 0xE0) * 4096 + (b2 - 0x80) * 64 + (b3 - 0x80) < 0x800 ∨
        (0xD800 ≤ (b - 0xE0) * 4096 + (b2 - 0x80) * 64 + (b3 - 0x80) ∧
          (b - 0xE0) * 4096 + (b2 - 0x80) * 64 + (b3 - 0x80) < 0xE000)) ∧
      ∃ cs', t = some cs' ∧
        cs = Char.ofNat ((b - 0xE0) * 4096 + (b2 - 0x80) * 64 + (b3 - 0x80)) :: cs' := by
  rw [utf8Cont3] at h
  by_cases hc : (isCont b2 && isCont b3) = true
  · rw [if_pos hc] at h
    by_cases hv : (b - 0xE0) * 4096 + (b2 - 0x80) * 64 + (b3 - 0x80) < 0x800 ∨
        (0xD800 ≤ (b - 0xE0) * 4096 + (b2 - 0x80) * 64 + (b3 - 0x80) ∧
          (b - 0xE0) * 4096 + (b2 - 0x80) * 64 + (b3 - 0x80) < 0xE000)
    · rw [if_pos hv] at h
      exact absurd h (by simp)
    · rw [if_neg hv] at h
      rcases Option.map_eq_some'.mp h with ⟨cs', ht, hcs⟩
      refine ⟨?_, hv, cs', ht, hcs.symm⟩
      simpa [isCont] using hc
  · rw [if_neg hc] at h
    exact absurd h (by simp)

theorem utf8Cont4_some {b b2 b3 b4 : Nat} {t : Option (List Char)} {cs : List Char}
    (h : utf8Cont4 b b2 b3 b4 t = some cs) :
    (((0x80 ≤ b2 ∧ b2 < 0xC0) ∧ (0x80 ≤ b3 ∧ b3 < 0xC0)) ∧ (0x80 ≤ b4 ∧ b4 < 0xC0)) ∧
      ¬((b - 0xF0) * 262144 + (b2 - 0x80) * 4096 + (b3 - 0x80) * 64 +
          (b4 - 0x80) < 0x10000 ∨
        0x10FFFF < (b - 0xF0) * 262144 + (b2 - 0x80) * 4096 + (b3 - 0x80) * 64 +
          (b4 - 0x80)) ∧
      ∃ cs', t = some cs' ∧
        cs = Char.ofNat ((b - 0xF0) * 262144 + (b2 - 0x80) * 4096 +
          (b3 - 0x80) * 64 + (b4 - 0x80)) :: cs' := by
  rw [utf8Cont4] at h
  by_cases hc : (isCont b2 && isCont b3 && isCont b4) = true
  · rw [if_pos hc] at h
    by_cases hv : (b - 0xF0) * 262144 + (b2 - 0x80) * 4096 + (b3 - 0x80) * 64 +
          (b4 - 0x80) < 0x10000 ∨
        0x10FFFF < (b - 0xF0) * 262144 + (b2 - 0x80) * 4096 + (b3 - 0x80) * 64 +
          (b4 - 0x80)
    · rw [if_pos hv] at h
      exact absurd h (by simp)
    · rw [if_neg hv] at h
      rcases Option.map_eq_some'.mp h with ⟨cs', ht, hcs⟩
      refine ⟨?_, hv, cs', ht, hcs.symm⟩
      simpa [isCont, and_assoc] using hc
  · rw [if_neg hc] at h
    exact absurd h (by simp)

/-- Round trip: a byte sequence the strict UTF-8 decoder accepts is
exactly the UTF-8 encoding of the decoded text. -/
theorem utf8Encode_of_decode :
    ∀ (bs : List Nat) (cs : List Char), utf8Decode bs = some cs →
      utf8Encode cs = bs := by
  suffices hmain : ∀ (n : Nat) (bs : List Nat), bs.length ≤ n →
      ∀ cs, utf8Decode bs = some cs → utf8Encode cs = bs by
    exact fun bs cs hd => hmain bs.length bs le_rfl cs hd
  intro n
  induction n with
  | zero =>
    intro bs hlen cs h
    have hb : bs = [] := List.eq_nil_of_length_eq_zero (Nat.le_zero.mp hlen)
    subst hb
    rw [utf8Decode] at h
    injection h with h
    subst h
    rfl
  | succ n ih =>
    intro bs hlen cs h
    rcases bs with _ | ⟨b, _ | ⟨b2, _ | ⟨b3, _ | ⟨b4, rest⟩⟩⟩⟩
    · rw [utf8Decode] at h
      injection h with h
      subst h
      rfl
    · rw [utf8Decode] at h
      by_cases h1 : b < 0x80
      · rw [if_pos h1] at h
        rcases Option.map_eq_some'.mp h with ⟨cs', hd, hcs⟩
        subst hcs
        have hr := ih [] (by simp) cs' hd
        rw [utf8Encode] at hr
        rw [utf8Encode, List.flatMap_cons, encodeChar_ascii h1, hr]
        rfl
      · rw [if_neg h1] at h
        exact absurd h (by simp)
    · rw [utf8Decode] at h
      by_cases h1 : b < 0x80
      · rw [if_pos h1] at h
        rcases Option.map_eq_some'.mp h with ⟨cs', hd, hcs⟩
        subst hcs
        have hr := ih [b2] (by simp at hlen ⊢; omega) cs' hd
        rw [utf8Encode] at hr
        rw [utf8Encode, List.flatMap_cons, encodeChar_ascii h1, hr]
        rfl
      · rw [if_neg h1] at h
        by_cases h2 : b < 0xC2
        · rw [if_pos h2] at h
          exact absurd h (by simp)
        · rw [if_neg h2] at h
          by_cases h3 : b < 0xE0
          · rw [if_pos h3] at h
            rcases utf8Cont2_some h with ⟨hc, cs', ht, hcs⟩
            subst hcs
            have hr := ih [] (by simp) cs' ht
            rw [utf8Encode] at hr
            rw [utf8Encode, List.flatMap_cons,
              encodeChar_two (by omega) h3 hc, hr]
            rfl
          · rw [if_neg h3] at h
            exact absurd h (by simp)
    · rw [utf8Decode] at h
      by_cases h1 : b < 0x80
      · rw [if_pos h1] at h
        rcases Option.map_eq_some'.mp h with ⟨cs', hd, hcs⟩
        subst hcs
        have hr := ih [b2, b3] (by simp at hlen ⊢; omega) cs' hd
        rw [utf8Encode] at hr
        rw [utf8Encode, List.flatMap_cons, encodeChar_ascii h1, hr]
        rfl
      · rw [if_neg h1] at h
        by_cases h2 : b < 0xC2
        · rw [if_pos h2] at h
          exact absurd h (by simp)
        · rw [if_neg h2] at h
          by_cases h3 : b < 0xE0
          · rw [if_pos h3] at h
            rcases utf8Cont2_some h with ⟨hc, cs', ht, hcs⟩
            subst hcs
            have hr := ih [b3] (by simp at hlen ⊢; omega) cs' ht
            rw [utf8Encode] at hr
            rw [utf8Encode, List.flatMap_cons,
              encodeChar_two (by omega) h3 hc, hr]
            rfl
          · rw [if_neg h3] at h
            by_cases h4 : b < 0xF0
            · rw [if_pos h4] at h
              rcases utf8Cont3_some h with ⟨⟨hc2, hc3⟩, hv, cs', ht, hcs⟩
              subst hcs
              have hr := ih [] (by simp) cs' ht
              rw [utf8Encode] at hr
              rw [utf8Encode, List.flatMap_cons,
                encodeChar_three (by omega) h4 hc2 hc3 hv, hr]
              rfl
            · rw [if_neg h4] at h
              exact absurd h (by simp)
    · rw [utf8Decode] at h
      by_cases h1 : b < 0x80
      · rw [if_pos h1] at h
        rcases Option.map_eq_some'.mp h with ⟨cs', hd, hcs⟩
        subst hcs
        have hr := ih (b2 :: b3 :: b4 :: rest) (by simp at hlen ⊢; omega) cs' hd
        rw [utf8Encode] at hr
        rw [utf8Encode, List.flatMap_cons, encodeChar_ascii h1, hr]
        rfl
      · rw [if_neg h1] at h
        by_cases h2 : b < 0xC2
        · rw [if_pos h2] at h
          exact absurd h (by simp)
        · rw [if_neg h2] at h
          by_cases h3 : b < 0xE0
          · rw [if_pos h3] at h
            rcases utf8Cont2_some h with ⟨hc, cs', ht, hcs⟩
            subst hcs
            have hr := ih (b3 :: b4 :: rest) (by simp at hlen ⊢; omega) cs' ht
            rw [utf8Encode] at hr
            rw [utf8Encode, List.flatMap_cons,
              encodeChar_two (by omega) h3 hc, hr]
            rfl
          · rw [if_neg h3] at h
            by_cases h4 : b < 0xF0
            · rw [if_pos h4] at h
              rcases utf8Cont3_some h with ⟨⟨hc2, hc3⟩, hv, cs', ht, hcs⟩
              subst hcs
              have hr := ih (b4 :: rest) (by simp at hlen ⊢; omega) cs' ht
              rw [utf8Encode] at hr
              rw [utf8Encode, List.flatMap_cons,
                encodeChar_three (by omega) h4 hc2 hc3 hv, hr]
              rfl
            · rw [if_neg h4] at h
              by_cases h5 : b < 0xF5
              · rw [if_pos h5] at h
                rcases utf8Cont4_some h with ⟨⟨⟨hc2, hc3⟩, hc4⟩, hv, cs', ht, hcs⟩
                subst hcs
                have hr := ih rest (by simp at hlen ⊢; omega) cs' ht
                rw [utf8Encode] at hr
                rw [utf8Encode, List.flatMap_cons,
                  encodeChar_four (by omega) h5 hc2 hc3 hc4 hv, hr]
                rfl
              · rw [if_neg h5] at h
                exact absurd h (by simp)

theorem latin1Decode_total {bs : List Nat} (hbytes : ∀ x ∈ bs, x < 256) :
    latin1Decode bs = some (bs.map Char.ofNat) := by
  rw [latin1Decode, if_pos]
  simp only [List.all_eq_true, decide_eq_true_eq]
  exact hbytes

theorem map_toNat_ofNat {bs : List Nat} (hbytes : ∀ x ∈ bs, x < 256) :
    (bs.map Char.ofNat).map Char.toNat = bs := by
  rw [List.map_map]
  calc bs.map (Char.toNat ∘ Char.ofNat)
      = bs.map id := List.map_congr_left
        (fun x hx => toNat_ofNat_of_valid (Or.inl (by have := hbytes x hx; omega)))
    _ = bs := List.map_id bs

/-! ## Claim theorems -/

/-- Claim C2: for the report text `"Correlation coefficient: 0.041\n`
`Elasticity: -0.40%\nWettest month: May\n"`, the extraction returns
exactly the map `{correlation: 0.041, elasticity: -0.40,`
`wettest_month: "May"}` and nothing else. -/
theorem claim_C2_end_to_end :
    extractRainMetrics
        (("Correlation coefficient: 0.041\nElasticity: -0.40%\nWettest month: May\n").data) =
      .ok ⟨some ((41 : Rat) / 1000), some (-(40 : Rat) / 100), some (("May").data)⟩ := by
  have hc : corrSearch
      (("Correlation coefficient: 0.041\nElasticity: -0.40%\nWettest month: May\n").data) =
      some (("0.041").data) := by decide
  have he : elasticSearch
      (("Correlation coefficient: 0.041\nElasticity: -0.40%\nWettest month: May\n").data) =
      some (("-0.40").data) := by decide
  have hm : monthSearch
      (("Correlation coefficient: 0.041\nElasticity: -0.40%\nWettest month: May\n").data) =
      some (("May").data) := by decide
  rw [extractRainMetrics, if_neg (by decide), hc, he, hm]
  simp only [pyFloatNum_0041, pyFloatNum_neg040]

/-- Claim C8: the extraction block is deterministic and side-effect free:
its result does not depend on and does not modify any ambient state (of
any type), and coincides with the pure function of the input text. -/
theorem claim_C8_extraction_pure (σ : Type) (st1 st2 : σ) (s : List Char) :
    (extractRainMetricsRun st1 s).1 = (extractRainMetricsRun st2 s).1 ∧
    (extractRainMetricsRun st1 s).2 = st1 ∧
    (extractRainMetricsRun st1 s).1 = extractRainMetrics s :=
  ⟨rfl, rfl, rfl⟩

/-- Claim C9: for a path with no file behind it, `safe_read_text` raises
(`FileNotFoundError` propagates out of the `except UnicodeDecodeError`
handler) instead of warning and returning an empty string. -/
theorem claim_C9_missing_file_raises (fs : String → Option (List Nat))
    (file_path : String) (hmiss : fs file_path = none) :
    safe_read_text fs file_path = (.error .fileNotFoundError, []) := by
  simp only [safe_read_text, hmiss]

theorem claim_C9_witness :
    safe_read_text (fun _ => none) ("missing.txt") =
      (.error .fileNotFoundError, []) :=
  claim_C9_missing_file_raises (fun _ => none) ("missing.txt") rfl

/-- Claim C10: for an existing readable file, `safe_read_text` returns
fully decoded content and never reaches the give-up branch (warning plus
empty string), because the latin-1 fallback succeeds on every byte
sequence. -/
theorem claim_C10_existing_file_reads (fs : String → Option (List Nat))
    (file_path : String) (bs : List Nat) (hfs : fs file_path = some bs)
    (hbytes : ∀ x ∈ bs, x < 256) :
    latin1Decode bs ≠ none ∧
    ∃ cs, safe_read_text fs file_path = (.ok cs, []) ∧
      (utf8Decode bs = some cs ∨
        (utf8Decode bs = none ∧ cs = bs.map Char.ofNat)) := by
  have hl1 := latin1Decode_total hbytes
  refine ⟨by rw [hl1]; exact fun hcon => Option.noConfusion hcon, ?_⟩
  cases hd : utf8Decode bs with
  | some cs =>
    exact ⟨cs, by simp only [safe_read_text, hfs, hd], Or.inl rfl⟩
  | none =>
    exact ⟨bs.map Char.ofNat, by simp only [safe_read_text, hfs, hd, hl1],
      Or.inr ⟨rfl, rfl⟩⟩

theorem claim_C10_witness :
    latin1Decode [255] ≠ none ∧
    ∃ cs, safe_read_text (fun _ => some [255]) ("r.txt") = (.ok cs, []) ∧
      (utf8Decode [255] = some cs ∨
        (utf8Decode [255] = none ∧ cs = [255].map Char.ofNat)) :=
  claim_C10_existing_file_reads (fun _ => some [255]) ("r.txt") [255] rfl
    (by decide)

/-- Claim C6: reading a report file round-trips: a valid UTF-8 byte
sequence decodes to text whose UTF-8 encoding is byte-identical to the
file, and any other byte sequence is still fully decoded (losslessly,
without a crash) by the latin-1 fallback, one character per byte. -/
theorem claim_C6_read_roundtrip (fs : String → Option (List Nat))
    (file_path : String) (bs : List Nat) (hfs : fs file_path = some bs)
    (hbytes : ∀ x ∈ bs, x < 256) :
    (∀ cs, utf8Decode bs = some cs →
      safe_read_text fs file_path = (.ok cs, []) ∧ utf8Encode cs = bs) ∧
    (utf8Decode bs = none →
      safe_read_text fs file_path = (.ok (bs.map Char.ofNat), []) ∧
      (bs.map Char.ofNat).map Char.toNat = bs) := by
  constructor
  · intro cs hd
    exact ⟨by simp only [safe_read_text, hfs, hd], utf8Encode_of_decode bs cs hd⟩
  · intro hd
    exact ⟨by simp only [safe_read_text, hfs, hd, latin1Decode_total hbytes],
      map_toNat_ofNat hbytes⟩

theorem claim_C6_witness :
    (safe_read_text (fun _ => some [65, 195, 169]) ("r.txt") =
      (.ok ['A', 'é'], []) ∧ utf8Encode ['A', 'é'] = [65, 195, 169]) ∧
    safe_read_text (fun _ => some [255, 65]) ("s.txt") =
      (.ok ([255, 65].map Char.ofNat), []) ∧
    ([255, 65].map Char.ofNat).map Char.toNat = [255, 65] :=
  ⟨(claim_C6_read_roundtrip (fun _ => some [65, 195, 169]) ("r.txt")
      [65, 195, 169] rfl (by decide)).1 ['A', 'é'] (by decide),
    (claim_C6_read_roundtrip (fun _ => some [255, 65]) ("s.txt")
      [255, 65] rfl (by decide)).2 (by decide)⟩

/-- Claim C7: for a nonexistent artifact path, `load_image` returns
`None` with exactly one warning and `display_plot` returns `False`,
with exactly one warning in its whole effect trace and no exception. -/
theorem claim_C7_missing_artifact {Img : Type} (fs : String → Option (List Nat))
    (openImage : List Nat → Except PyErr Img) (image_path : String)
    (title description : String) (hmiss : fs image_path = none) :
    load_image fs openImage image_path = (none, [.warn]) ∧
    (display_plot fs openImage image_path title description).1 = false ∧
    ((display_plot fs openImage image_path title description).2.count .warn) = 1 := by
  have hl : load_image fs openImage image_path = (none, [.warn]) := by
    simp only [load_image, hmiss]
  refine ⟨hl, ?_, ?_⟩
  · by_cases hdesc : description.isEmpty <;>
      simp [display_plot, hl, hdesc]
  · by_cases hdesc : description.isEmpty <;>
      simp [display_plot, hl, hdesc, List.count_append, List.count_cons]

theorem claim_C7_witness :
    @load_image PUnit (fun _ => none) (fun _ => .error .imageError)
        ("missing.png") = (none, [.warn]) ∧
    (@display_plot PUnit (fun _ => none) (fun _ => .error .imageError)
        ("missing.png") ("A plot") ("")).1 = false ∧
    ((@display_plot PUnit (fun _ => none) (fun _ => .error .imageError)
        ("missing.png") ("A plot") ("")).2.count .warn) = 1 :=
  claim_C7_missing_artifact (fun _ => none) (fun _ => .error .imageError)
    ("missing.png") ("A plot") ("") rfl

/-- Claim C1 (amended): when a metric's label pattern does not match at
all — in particular when the value text contains no characters from
`[0-9.-]`, as in `"Correlation coefficient: N/A"` — the field is simply
absent from a successful result, with no error; but when the pattern
does match and the captured substring is not a valid float, `float()`
raises an uncaught `ValueError` that aborts the whole extraction, so
malformed matched numerics are fatal rather than omitted. -/
theorem claim_C1_nonnumeric_capture (s : List Char) :
    (∀ g, corrSearch s = some g → pyFloatNum g = none →
      extractRainMetrics s = .error .valueError) ∧
    (∀ g, elasticSearch s = some g → pyFloatNum g = none →
      ∃ e, extractRainMetrics s = .error e) ∧
    (corrSearch s = none →
      ∀ m, extractRainMetrics s = .ok m → m.correlation = none) ∧
    (elasticSearch s = none →
      ∀ m, extractRainMetrics s = .ok m → m.elasticity = none) := by
  refine ⟨fun g hc hp => extract_error_of_malformed_corr hc hp,
    fun g he hp => extract_error_of_malformed_elastic he hp, ?_, ?_⟩
  · intro hc m hm
    rw [(extract_ok_fields hm).1, hc]
    rfl
  · intro he m hm
    rw [(extract_ok_fields hm).2.1, he]
    rfl

/-- Claim C1 counterexample: in
`"Correlation coefficient: 1.2.3\n"` the correlation pattern matches
with capture `"1.2.3"`, `float` rejects the capture, and the extractor
raises an uncaught `ValueError` instead of omitting the field. -/
theorem claim_C1_counterexample :
    corrSearch (("Correlation coefficient: 1.2.3\n").data) =
      some (("1.2.3").data) ∧
    pyFloatNum (("1.2.3").data) = none ∧
    extractRainMetrics (("Correlation coefficient: 1.2.3\n").data) =
      .error .valueError :=
  ⟨by decide, by decide,
    extract_error_of_malformed_corr (g := ("1.2.3").data) (by decide) (by decide)⟩

theorem claim_C1_witness :
    extractRainMetrics (("Correlation coefficient: 1.2.3\n").data) =
      .error .valueError ∧
    (⟨none, none, none⟩ : RainMetrics).correlation = none :=
  ⟨(claim_C1_nonnumeric_capture (("Correlation coefficient: 1.2.3\n").data)).1
      (("1.2.3").data) (by decide) (by decide),
    (claim_C1_nonnumeric_capture (("Correlation coefficient: N/A\n").data)).2.2.1
      (by decide) ⟨none, none, none⟩ (by rfl)⟩

/-- Claim C3: if the report text nowhere contains `"Elasticity:"`, a
successful extraction has no elasticity key, the displayed value falls
back to the caller default `-0.40`, and in general every key present in
the result comes from a position where its own pattern matched. -/
theorem claim_C3_no_elasticity_line (s : List Char) (m : RainMetrics)
    (hok : extractRainMetrics s = .ok m)
    (hno : ∀ i, ¬ occursAt (("Elasticity:").data) s i) :
    m.elasticity = none ∧
    elasticDisplayVal m = -(40 : Rat) / 100 ∧
    (m.correlation.isSome →
      ∃ i, matchCap corrLabel numChar none (s.drop i) ≠ none) ∧
    (m.elasticity.isSome →
      ∃ i, matchCap elasticLabel numChar (some '%') (s.drop i) ≠ none) ∧
    (m.wettest_month.isSome →
      ∃ i, matchCap monthLabel wordChar none (s.drop i) ≠ none) := by
  obtain ⟨hfc, hfe, hfm⟩ := extract_ok_fields hok
  have hlabel : ∀ i, ¬ occursAt elasticLabel s i := by
    intro i hocc
    exact hno i (List.IsPrefix.trans (by decide) hocc)
  have hse : elasticSearch s = none := by
    apply reSearch_none_of_no_occurrence (by decide)
    intro hin
    rcases infix_iff_exists_occursAt.mp hin with ⟨i, hi⟩
    exact hlabel i hi
  have helast : m.elasticity = none := by rw [hfe, hse]; rfl
  refine ⟨helast, by rw [elasticDisplayVal, helast]; rfl, ?_, ?_, ?_⟩
  · intro hsome
    rw [hfc] at hsome
    rcases hcs : corrSearch s with _ | g
    · rw [hcs] at hsome
      exact absurd hsome (by simp)
    · rcases reSearch_eq_some_iff.mp hcs with ⟨i, hi, _⟩
      exact ⟨i, by rw [hi]; exact fun hcon => Option.noConfusion hcon⟩
  · intro hsome
    rw [helast] at hsome
    exact absurd hsome (by simp)
  · intro hsome
    rw [hfm] at hsome
    rcases hms : monthSearch s with _ | g
    · rw [hms] at hsome
      exact absurd hsome (by simp)
    · rcases reSearch_eq_some_iff.mp hms with ⟨i, hi, _⟩
      exact ⟨i, by rw [hi]; exact fun hcon => Option.noConfusion hcon⟩

theorem claim_C3_witness :
    extractRainMetrics (("Correlation coefficient: 0.041\nWettest month: May\n").data) =
      .ok ⟨some ((41 : Rat) / 1000), none, some (("May").data)⟩ ∧
    (⟨some ((41 : Rat) / 1000), none, some (("May").data)⟩ : RainMetrics).elasticity = none ∧
    elasticDisplayVal ⟨some ((41 : Rat) / 1000), none, some (("May").data)⟩ =
      -(40 : Rat) / 100 := by
  have hc : corrSearch (("Correlation coefficient: 0.041\nWettest month: May\n").data) =
      some (("0.041").data) := by decide
  have he : elasticSearch (("Correlation coefficient: 0.041\nWettest month: May\n").data) =
      none := by decide
  have hm : monthSearch (("Correlation coefficient: 0.041\nWettest month: May\n").data) =
      some (("May").data) := by decide
  have hok : extractRainMetrics (("Correlation coefficient: 0.041\nWettest month: May\n").data) =
      .ok ⟨some ((41 : Rat) / 1000), none, some (("May").data)⟩ := by
    rw [extractRainMetrics, if_neg (by decide), hc, he, hm]
    simp only [pyFloatNum_0041]
  have hres := claim_C3_no_elasticity_line _ _ hok
    (neverOccurs_sound (by decide) (by decide))
  exact ⟨hok, hres.1, hres.2.1⟩

theorem not_infix_of_occursWithin_eq_false {lit l : List Char}
    (hlit : lit ≠ []) (h : occursWithin lit l = false) : ¬ lit <:+: l := by
  intro hin
  rcases infix_iff_exists_occursAt.mp hin with ⟨i, hi⟩
  have hlt := occursAt_lt_length hlit hi
  have : (List.range (l.length + 1)).any
      (fun i => lit.isPrefixOf (l.drop i)) = true := by
    apply List.any_eq_true.mpr
    exact ⟨i, List.mem_range.mpr (by omega), isPrefixOf_iff.mpr hi⟩
  rw [occursWithin] at h
  rw [h] at this
  exact Bool.false_ne_true this

/-- The leftmost-match search over newline-joined lines depends only on
the sublist of lines in which the label literal occurs as a substring:
inserting, deleting or reordering the other lines cannot change the
result. -/
theorem search_lines_only_label {lit : List Char} {cls : Char → Bool}
    {suf : Option Char} (hlit : lit ≠ []) (hnl : '\n' ∉ lit)
    (hcls : cls '\n' = false) (hsuf : ∀ c, suf = some c → c ≠ '\n')
    {L L' : List (List Char)}
    (hf : L.filter (occursWithin lit) = L'.filter (occursWithin lit)) :
    reSearch lit cls suf (joinLines L) = reSearch lit cls suf (joinLines L') := by
  have h1 : ∀ l ∈ L, occursWithin lit l = false →
      reSearch lit cls suf l = none := fun l _ hdec =>
    reSearch_none_of_no_occurrence hlit (not_infix_of_occursWithin_eq_false hlit hdec)
  have h2 : ∀ l ∈ L', occursWithin lit l = false →
      reSearch lit cls suf l = none := fun l _ hdec =>
    reSearch_none_of_no_occurrence hlit (not_infix_of_occursWithin_eq_false hlit hdec)
  rw [reSearch_joinLines hlit hnl hcls hsuf, reSearch_joinLines hlit hnl hcls hsuf,
    findSome?_eq_findSome?_filter _ _ L h1, findSome?_eq_findSome?_filter _ _ L' h2,
    hf]

/-- Claim C4 (amended): in a report text in which the correlation label
occurs exactly once, and there reads `"Correlation coefficient: 0.041"`
followed by end-of-text or a newline, a successful extraction maps
`correlation` to `0.041` (other metrics may be present per their own
patterns, and extraction can still abort if another matched numeric is
malformed). -/
theorem claim_C4_correlation_line (a b : List Char) (m : RainMetrics)
    (hb : b = [] ∨ ∃ t, b = '\n' :: t)
    (huniq : ∀ i, occursAt corrLabel
      (a ++ (("Correlation coefficient: 0.041").data) ++ b) i → i = a.length)
    (hok : extractRainMetrics
      (a ++ (("Correlation coefficient: 0.041").data) ++ b) = .ok m) :
    m.correlation = some ((41 : Rat) / 1000) := by
  have hsplit : a ++ (("Correlation coefficient: 0.041").data) ++ b =
      a ++ (corrLabel ++ ((("0.041").data) ++ b)) := by
    rw [show (("Correlation coefficient: 0.041").data) =
      corrLabel ++ (("0.041").data) from by decide]
    simp [List.append_assoc]
  have hb' : ∀ e t, b = e :: t → numChar e = false := by
    intro e t het
    rcases hb with hnil | ⟨bt, hbt⟩
    · rw [hnil] at het
      exact List.noConfusion het
    · rw [hbt] at het
      injection het with h1 _
      rw [← h1]
      decide
  have hcs : corrSearch
      (a ++ (("Correlation coefficient: 0.041").data) ++ b) =
      some (("0.041").data) := by
    rw [hsplit]
    refine reSearch_only_occurrence (by decide) (by decide) hb' ?_
    intro i hi
    refine huniq i ?_
    rw [hsplit]
    exact hi
  rw [(extract_ok_fields hok).1, hcs]
  show pyFloatNum (("0.041").data) = some ((41 : Rat) / 1000)
  exact pyFloatNum_0041

/-- Claim C4 counterexample: the text
`"Correlation coefficient: 7\nCorrelation coefficient: 0.041\n"`
contains the full line `"Correlation coefficient: 0.041"`, yet the
extractor maps `correlation` to the leftmost match's value `7`, not
`0.041`. -/
theorem claim_C4_counterexample :
    ("Correlation coefficient: 7\nCorrelation coefficient: 0.041\n").data =
      (("Correlation coefficient: 7\n").data) ++
        (("Correlation coefficient: 0.041").data) ++ ['\n'] ∧
    extractRainMetrics
      (("Correlation coefficient: 7\nCorrelation coefficient: 0.041\n").data) =
      .ok ⟨some (7 : Rat), none, none⟩ ∧
    (7 : Rat) ≠ (41 : Rat) / 1000 := by
  refine ⟨by decide, ?_, by norm_num⟩
  have hc : corrSearch
      (("Correlation coefficient: 7\nCorrelation coefficient: 0.041\n").data) =
      some ['7'] := by decide
  have he : elasticSearch
      (("Correlation coefficient: 7\nCorrelation coefficient: 0.041\n").data) =
      none := by decide
  have hm : monthSearch
      (("Correlation coefficient: 7\nCorrelation coefficient: 0.041\n").data) =
      none := by decide
  rw [extractRainMetrics, if_neg (by decide), hc, he, hm]
  simp only [pyFloatNum_seven]

theorem claim_C4_witness :
    (⟨some ((41 : Rat) / 1000), none, none⟩ : RainMetrics).correlation =
      some ((41 : Rat) / 1000) := by
  have hc : corrSearch
      (([] : List Char) ++ (("Correlation coefficient: 0.041").data) ++ ['\n']) =
      some (("0.041").data) := by decide
  have he : elasticSearch
      (([] : List Char) ++ (("Correlation coefficient: 0.041").data) ++ ['\n']) =
      none := by decide
  have hm : monthSearch
      (([] : List Char) ++ (("Correlation coefficient: 0.041").data) ++ ['\n']) =
      none := by decide
  have hok : extractRainMetrics
      (([] : List Char) ++ (("Correlation coefficient: 0.041").data) ++ ['\n']) =
      .ok ⟨some ((41 : Rat) / 1000), none, none⟩ := by
    rw [extractRainMetrics, if_neg (by decide), hc, he, hm]
    simp only [pyFloatNum_0041]
  refine claim_C4_correlation_line [] ['\n'] _ (Or.inr ⟨[], rfl⟩) ?_ hok
  intro i hi
  exact onlyOccurrenceAt_sound (by decide) (by decide) i hi

/-- Claim C5 (amended): each of the three label patterns is searched
independently anywhere in the text and the leftmost match wins; for
texts given as newline-terminated lines, each metric's search result
depends only on the sublist of lines containing that metric's label, so
the presence, position or order of the other metrics' lines cannot
change it; and on a successful extraction each field equals the parse of
its own search alone.  (When a matched numeric of any pattern is
malformed the whole extraction aborts instead — see claim C1.) -/
theorem claim_C5_independent_leftmost :
    (∀ s g, corrSearch s = some g →
      ∃ i, matchCap corrLabel numChar none (s.drop i) = some g ∧
        ∀ j < i, matchCap corrLabel numChar none (s.drop j) = none) ∧
    (∀ s g, elasticSearch s = some g →
      ∃ i, matchCap elasticLabel numChar (some '%') (s.drop i) = some g ∧
        ∀ j < i, matchCap elasticLabel numChar (some '%') (s.drop j) = none) ∧
    (∀ s g, monthSearch s = some g →
      ∃ i, matchCap monthLabel wordChar none (s.drop i) = some g ∧
        ∀ j < i, matchCap monthLabel wordChar none (s.drop j) = none) ∧
    (∀ L L' : List (List Char),
      L.filter (occursWithin corrLabel) = L'.filter (occursWithin corrLabel) →
      corrSearch (joinLines L) = corrSearch (joinLines L')) ∧
    (∀ L L' : List (List Char),
      L.filter (occursWithin elasticLabel) =
        L'.filter (occursWithin elasticLabel) →
      elasticSearch (joinLines L) = elasticSearch (joinLines L')) ∧
    (∀ L L' : List (List Char),
      L.filter (occursWithin monthLabel) = L'.filter (occursWithin monthLabel) →
      monthSearch (joinLines L) = monthSearch (joinLines L')) ∧
    (∀ s m, extractRainMetrics s = .ok m →
      m.correlation = (corrSearch s).bind pyFloatNum ∧
      m.elasticity = (elasticSearch s).bind pyFloatNum ∧
      m.wettest_month = monthSearch s) :=
  ⟨fun _ _ h => reSearch_eq_some_iff.mp h,
    fun _ _ h => reSearch_eq_some_iff.mp h,
    fun _ _ h => reSearch_eq_some_iff.mp h,
    fun _ _ hf => search_lines_only_label (by decide) (by decide) (by decide)
      (fun _ hcon => Option.noConfusion hcon) hf,
    fun _ _ hf => search_lines_only_label (by decide) (by decide) (by decide)
      (fun c h => by injection h with h; rw [← h]; decide) hf,
    fun _ _ hf => search_lines_only_label (by decide) (by decide) (by decide)
      (fun _ hcon => Option.noConfusion hcon) hf,
    fun _ _ h => extract_ok_fields h⟩

/-- Claim C5 counterexample: whether the correlation metric is present
in the extractor's result does depend on the other metrics' lines: the
text `"Correlation coefficient: 0.5\n"` yields a map with
`correlation = 0.5`, but appending the elasticity line
`"Elasticity: -%\n"` (whose matched capture `"-"` is not a valid float)
makes the whole extraction raise, so no metric at all is returned. -/
theorem claim_C5_counterexample :
    extractRainMetrics (("Correlation coefficient: 0.5\n").data) =
      .ok ⟨some ((1 : Rat) / 2), none, none⟩ ∧
    extractRainMetrics
      (("Correlation coefficient: 0.5\nElasticity: -%\n").data) =
      .error .valueError := by
  constructor
  · have hc : corrSearch (("Correlation coefficient: 0.5\n").data) =
        some (("0.5").data) := by decide
    have he : elasticSearch (("Correlation coefficient: 0.5\n").data) = none := by
      decide
    have hm : monthSearch (("Correlation coefficient: 0.5\n").data) = none := by
      decide
    rw [extractRainMetrics, if_neg (by decide), hc, he, hm]
    simp only [pyFloatNum_05]
  · have hc : corrSearch
        (("Correlation coefficient: 0.5\nElasticity: -%\n").data) =
        some (("0.5").data) := by decide
    have he : elasticSearch
        (("Correlation coefficient: 0.5\nElasticity: -%\n").data) =
        some ['-'] := by decide
    rw [extractRainMetrics, if_neg (by decide), hc, he]
    simp only [pyFloatNum_05, show pyFloatNum ['-'] = none from by decide]

theorem claim_C5_witness :
    corrSearch (joinLines [("Correlation coefficient: 0.5").data]) =
      corrSearch (joinLines [("Elasticity: -0.40%").data,
        ("Correlation coefficient: 0.5").data]) :=
  claim_C5_independent_leftmost.2.2.2.1
    [("Correlation coefficient: 0.5").data]
    [("Elasticity: -0.40%").data, ("Correlation coefficient: 0.5").data]
    (by decide)
